import Mathlib

/- Shallow embedding of tensorflow/core/tpu/kernels/tpu_op_util.cc.
Byte strings are modelled as List Char; machine integers as Nat with an
explicit reduction modulo 2 ^ 64 where the code stores into a uint64_t.
The native primitives TpuCompile_CreateCompilationCacheKey and
TpuCompile_CreateGuaranteedConstFingerprint are parameters of the
definitions: the specification treats them as black-box deterministic
functions at the library boundary. -/

/-- Characters of a string literal, used to write byte strings concisely. -/
def chars (s : String) : List Char := s.data

/-- Decimal digit character, as produced by std::to_string / absl StrAppend. -/
def digitCh (d : Nat) : Char := Char.ofNat (48 + d)

/-- Numeric value of a decimal digit character. -/
def chDigit (c : Char) : Nat := c.toNat - 48

/-- Big-endian decimal digits of n (no leading zeros), with explicit fuel so
that the recursion is structural. -/
def natDecAux : Nat → Nat → List Char
  | 0, _ => []
  | fuel + 1, n => if n = 0 then [] else natDecAux fuel (n / 10) ++ [digitCh (n % 10)]

/-- Decimal rendering of a natural number, as std::to_string and
absl StrAppend print an unsigned integer. -/
def natDec (n : Nat) : List Char := if n = 0 then [digitCh 0] else natDecAux n n

/-- Decimal rendering of a signed integer, as absl StrAppend prints an int64. -/
def intDec (i : Int) : List Char :=
  if i < 0 then '-' :: natDec i.natAbs else natDec i.natAbs

/-- Concatenation of the encodings of the elements of a list, in order; this
is the shape of every StrAppend loop in the source file. -/
def encList {α : Type} (f : α → List Char) : List α → List Char
  | [] => []
  | x :: xs => f x ++ encList f xs

/-- Modelled from the spec: a guaranteed-constant tensor, reduced to the raw
bytes exposed by tensor_data() (the only part the source reads). -/
structure Tensor where
  data : List Nat
deriving DecidableEq

/-- Modelled from the spec: the sharding-permission tri-state of
TPUCompileMetadataProto.Arg, with states disallowed, allowed and
unspecified-default. -/
inductive EnableXlaSharding
  | DISALLOWED
  | ALLOWED
  | UNSPECIFIED
deriving DecidableEq, Fintype

/-- Modelled from the spec: the per-argument compilation configuration record
of the metadata. The element type is the rendered tag appended between
type( and ). -/
structure Arg where
  is_same_data_across_replicas : Bool
  enable_xla_sharding : EnableXlaSharding
  unrestricted_layout : Bool
  dtype : List Char
  shape : Option (List Int)
deriving DecidableEq

/-- Modelled from the spec: one computation's replica device ids. -/
structure ComputationDevice where
  replica_device_ids : List Int
deriving DecidableEq

/-- Modelled from the spec: the optional device assignment of the metadata. -/
structure DeviceAssignment where
  computation_devices : List ComputationDevice
deriving DecidableEq

/-- Modelled from the spec: the metadata record (TPUCompileMetadataProto)
with the fields the source reads. -/
structure TPUCompileMetadataProto where
  args : List Arg
  device_assignment : Option DeviceAssignment
  num_replicas : Nat
  num_cores_per_replica : Nat
  session_handle : List Char
  guaranteed_const_fingerprint : List Char
deriving DecidableEq

/-- CreateShapePrefix from tpu_op_util.cc: for each shape, each dimension
size followed by a comma, then a terminating semicolon. -/
def CreateShapePrefix (dynamic_shapes : List (List Nat)) : List Char :=
  encList (fun shape => encList (fun size => natDec size ++ [',']) shape ++ [';'])
    dynamic_shapes

/-- Replica-sharing marker of CreateConfigPrefix. -/
def sameMarker (b : Bool) : List Char := if b then [':', 's'] else [':']

/-- Sharding marker of CreateConfigPrefix: e exactly when sharding is
explicitly ALLOWED. -/
def shardingMarker (s : EnableXlaSharding) : List Char :=
  if s = EnableXlaSharding.ALLOWED then ['e'] else []

/-- Layout marker of CreateConfigPrefix. -/
def layoutMarker (u : Bool) : List Char := if u then [':', 'u'] else []

/-- Dimension list of a static shape: each size followed by a comma. -/
def dimsEnc (dims : List Int) : List Char := encList (fun d => intDec d ++ [',']) dims

/-- Static-shape fragment of CreateConfigPrefix: present only when the
argument carries a shape. -/
def shapeMarker (shape : Option (List Int)) : List Char :=
  match shape with
  | some dims => chars ",shape(" ++ (dimsEnc dims ++ [')'])
  | none => []

/-- Per-argument encoding of CreateConfigPrefix, appended in source order:
replica-sharing marker, sharding marker, layout marker, type tag,
optional static shape. -/
def encodeArg (a : Arg) : List Char :=
  sameMarker a.is_same_data_across_replicas ++
    (shardingMarker a.enable_xla_sharding ++
      (layoutMarker a.unrestricted_layout ++
        (chars ",type(" ++ (a.dtype ++ ([')'] ++ shapeMarker a.shape)))))

/-- CreateConfigPrefix from tpu_op_util.cc: the per-argument encodings of
metadata.args, concatenated in order. -/
def CreateConfigPrefix (metadata : TPUCompileMetadataProto) : List Char :=
  encList encodeArg metadata.args

/-- GuaranteedConstFingerprint from tpu_op_util.cc, instrumented with the
number of rolling-hash invocations it performs (second component). The
rolling hash rh models TpuCompile_CreateGuaranteedConstFingerprint; its
uint64 result is reduced modulo 2 ^ 64. The constants are the pointed-to
array together with its length, exactly as in the source signature. -/
def GuaranteedConstFingerprint (rh : Nat → List Nat → Nat)
    (fingerprint_in_metadata : List Char)
    (guaranteed_constants : Nat → Tensor) (guaranteed_constants_size : Nat) :
    List Char × Nat :=
  if fingerprint_in_metadata = [] then
    let p := (List.range guaranteed_constants_size).foldl
      (fun st i => (rh st.1 (guaranteed_constants i).data % 2 ^ 64, st.2 + 1))
      ((0 : Nat), (0 : Nat))
    (natDec p.1, p.2)
  else (fingerprint_in_metadata, 0)

/-- The same computation on the materialized list of constants the closure
state stores (the first guaranteed_constants_size array elements). -/
def guaranteedConstFingerprintL (rh : Nat → List Nat → Nat)
    (fingerprint_in_metadata : List Char) (cs : List Tensor) : List Char × Nat :=
  if fingerprint_in_metadata = [] then
    let p := cs.foldl (fun st t => (rh st.1 t.data % 2 ^ 64, st.2 + 1))
      ((0 : Nat), (0 : Nat))
    (natDec p.1, p.2)
  else (fingerprint_in_metadata, 0)

/-- State of the guaranteed_const_fingerprint closure: the captured metadata
and constants, plus the by-value captured mutable fingerprint string,
initially empty. -/
structure FingerprintClosure where
  metadata : TPUCompileMetadataProto
  constants : List Tensor
  cache : List Char
deriving DecidableEq

/-- One invocation of the closure: when the cached string is still empty,
run GuaranteedConstFingerprint and store the result, else return the
cache. Third component: how many times GuaranteedConstFingerprint ran
(0 or 1); fourth: how many rolling-hash calls that entailed. -/
def closureCall (rh : Nat → List Nat → Nat) (c : FingerprintClosure) :
    List Char × FingerprintClosure × Nat × Nat :=
  if c.cache = [] then
    let r := guaranteedConstFingerprintL rh c.metadata.guaranteed_const_fingerprint
      c.constants
    (r.1, { c with cache := r.1 }, 1, r.2)
  else (c.cache, c, 0, 0)

/-- n successive invocations of the closure: returned strings in order, the
final closure state, total GuaranteedConstFingerprint computations and
total rolling-hash invocations. -/
def closureRun (rh : Nat → List Nat → Nat) : Nat → FingerprintClosure →
    List (List Char) × FingerprintClosure × Nat × Nat
  | 0, c => ([], c, 0, 0)
  | n + 1, c =>
    match closureCall rh c with
    | (s, c1, k1, r1) =>
      match closureRun rh n c1 with
      | (ss, c2, k2, r2) => (s :: ss, c2, k1 + k2, r1 + r2)

/-- Modelled from the spec: the input record of the opaque native
key-construction primitive. The flattened device id array and its length
are carried as a single list. -/
structure CompilationCacheKeyProperty where
  configPrefix : List Char
  shapesPrefix : List Char
  functionName : List Char
  mlirModule : List Char
  flattenedDeviceIds : List Int
  guaranteedConstantsSize : Nat
  functionLibraryFingerprint : Nat
  numCoresPerReplica : Nat
  numReplicas : Nat
  meshStateData : Nat
deriving DecidableEq

/-- Modelled from the spec: the output of the native primitive, holding the
compact key and the human-readable debug string. -/
structure CompilationCacheKeyResult where
  key : List Char
  debug_string : List Char
deriving DecidableEq

/-- Modelled from the spec: the assembled cache key. A default-constructed
key has empty strings, has_guaranteed_const false and no fingerprint
closure attached. -/
structure TpuCompilationCacheKey where
  keyPrefix : List Char
  debug_string : List Char
  has_guaranteed_const : Bool
  session_handle : List Char
  guaranteed_const_fingerprint : Option FingerprintClosure
deriving DecidableEq

/-- Row-major flattening of the device assignment, as in the source loop
over computation_devices inserting each replica_device_ids block. -/
def flattenDeviceIds (metadata : TPUCompileMetadataProto) : List Int :=
  match metadata.device_assignment with
  | some da => da.computation_devices.foldl (fun acc d => acc ++ d.replica_device_ids) []
  | none => []

/-- The CompilationCacheKeyProperty record CreateCompilationCacheKey passes
to the native primitive. -/
def mkProperty (function_name : List Char) (function_library_fingerprint : Nat)
    (mlir_module : List Char) (guaranteed_constants_size : Nat)
    (dynamic_shapes : List (List Nat)) (metadata : TPUCompileMetadataProto)
    (mesh_state : Nat) : CompilationCacheKeyProperty :=
  { configPrefix := CreateConfigPrefix metadata,
    shapesPrefix := CreateShapePrefix dynamic_shapes,
    functionName := function_name,
    mlirModule := mlir_module,
    flattenedDeviceIds := flattenDeviceIds metadata,
    guaranteedConstantsSize := guaranteed_constants_size,
    functionLibraryFingerprint := function_library_fingerprint,
    numCoresPerReplica := metadata.num_cores_per_replica,
    numReplicas := metadata.num_replicas,
    meshStateData := mesh_state }

/-- The first n elements of the pointed-to constants array, in order; this is
what the attached closure can ever read. -/
def extractConstants (guaranteed_constants : Nat → Tensor) : Nat → List Tensor
  | 0 => []
  | n + 1 => extractConstants guaranteed_constants n ++ [guaranteed_constants n]

/-- Assembly of the returned key from the native result: the two strings are
copied out, and the guaranteed-const fields are set only when a non-null
constants array with positive size was supplied. -/
def assembleKey (result : CompilationCacheKeyResult)
    (guaranteed_constants : Option (Nat → Tensor)) (guaranteed_constants_size : Nat)
    (metadata : TPUCompileMetadataProto) : TpuCompilationCacheKey :=
  let key : TpuCompilationCacheKey :=
    { keyPrefix := result.key, debug_string := result.debug_string,
      has_guaranteed_const := false, session_handle := [],
      guaranteed_const_fingerprint := none }
  match guaranteed_constants with
  | some arr =>
    if 0 < guaranteed_constants_size then
      { key with has_guaranteed_const := true,
                 session_handle := metadata.session_handle,
                 guaranteed_const_fingerprint :=
                   some { metadata := metadata,
                          constants := extractConstants arr guaranteed_constants_size,
                          cache := [] } }
    else key
  | none => key

/-- CreateCompilationCacheKey, pointer + length overload, with the native
key-construction primitive as a parameter. -/
def createCompilationCacheKeyPtr
    (native : CompilationCacheKeyProperty → CompilationCacheKeyResult)
    (function_name : List Char) (function_library_fingerprint : Nat)
    (mlir_module : List Char) (guaranteed_constants : Option (Nat → Tensor))
    (guaranteed_constants_size : Nat) (dynamic_shapes : List (List Nat))
    (metadata : TPUCompileMetadataProto) (mesh_state : Nat) :
    TpuCompilationCacheKey :=
  assembleKey
    (native (mkProperty function_name function_library_fingerprint mlir_module
      guaranteed_constants_size dynamic_shapes metadata mesh_state))
    guaranteed_constants guaranteed_constants_size metadata

/-- CreateCompilationCacheKey, OpInputList overload: forwards the address of
the first element, or null when the list is empty, and the list length. -/
def createCompilationCacheKeyList
    (native : CompilationCacheKeyProperty → CompilationCacheKeyResult)
    (function_name : List Char) (function_library_fingerprint : Nat)
    (mlir_module : List Char) (guaranteed_constants : List Tensor)
    (dynamic_shapes : List (List Nat)) (metadata : TPUCompileMetadataProto)
    (mesh_state : Nat) : TpuCompilationCacheKey :=
  createCompilationCacheKeyPtr native function_name function_library_fingerprint
    mlir_module
    (if 0 < guaranteed_constants.length
      then some (fun i => guaranteed_constants.getD i { data := [] }) else none)
    guaranteed_constants.length dynamic_shapes metadata mesh_state

/-- CreateCompilationCacheKey as a relation, for stating determinism: the
native primitive is an arbitrary relation between the property record and
its result, and the rest of the derivation is as in the source. -/
def CreateKeyRel (native : CompilationCacheKeyProperty → CompilationCacheKeyResult → Prop)
    (function_name : List Char) (function_library_fingerprint : Nat)
    (mlir_module : List Char) (guaranteed_constants : Option (Nat → Tensor))
    (guaranteed_constants_size : Nat) (dynamic_shapes : List (List Nat))
    (metadata : TPUCompileMetadataProto) (mesh_state : Nat)
    (key : TpuCompilationCacheKey) : Prop :=
  ∃ r, native (mkProperty function_name function_library_fingerprint mlir_module
        guaranteed_constants_size dynamic_shapes metadata mesh_state) r ∧
    key = assembleKey r guaranteed_constants guaranteed_constants_size metadata

/-- Observable events of one CreateCompilationCacheKey execution, for the
resource-scope contract around the native result buffer. -/
inductive KeyEvent
  | nativeCreate (p : CompilationCacheKeyProperty)
  | copyKeyString
  | copyDebugString
  | setGuaranteedConstFields
  | destroyResult
deriving DecidableEq

/-- Event trace of CreateCompilationCacheKey in source order: the native
call, the two copies out of the result buffer, the conditional setting of
the guaranteed-const fields, and the scope-exit cleanup that destroys the
native result buffer last. -/
def createKeyTrace (function_name : List Char) (function_library_fingerprint : Nat)
    (mlir_module : List Char) (guaranteed_constants : Option (Nat → Tensor))
    (guaranteed_constants_size : Nat) (dynamic_shapes : List (List Nat))
    (metadata : TPUCompileMetadataProto) (mesh_state : Nat) : List KeyEvent :=
  [KeyEvent.nativeCreate (mkProperty function_name function_library_fingerprint
      mlir_module guaranteed_constants_size dynamic_shapes metadata mesh_state),
    KeyEvent.copyKeyString, KeyEvent.copyDebugString] ++
  (match guaranteed_constants with
   | some _ =>
     if 0 < guaranteed_constants_size then [KeyEvent.setGuaranteedConstFields] else []
   | none => []) ++
  [KeyEvent.destroyResult]

/-- A single-field difference between two argument configurations: the two
records agree on every field except the named one. -/
inductive SingleFieldDiff : Arg → Arg → Prop
  | same_flag {b1 b2 : Bool} {s u d sh} (h : b1 ≠ b2) :
      SingleFieldDiff ⟨b1, s, u, d, sh⟩ ⟨b2, s, u, d, sh⟩
  | sharding {s1 s2 : EnableXlaSharding} {b u d sh} (h : s1 ≠ s2) :
      SingleFieldDiff ⟨b, s1, u, d, sh⟩ ⟨b, s2, u, d, sh⟩
  | layout_flag {u1 u2 : Bool} {b s d sh} (h : u1 ≠ u2) :
      SingleFieldDiff ⟨b, s, u1, d, sh⟩ ⟨b, s, u2, d, sh⟩
  | dtype_tag {d1 d2 : List Char} {b s u sh} (h : d1 ≠ d2) :
      SingleFieldDiff ⟨b, s, u, d1, sh⟩ ⟨b, s, u, d2, sh⟩
  | static_shape {sh1 sh2 : Option (List Int)} {b s u d} (h : sh1 ≠ sh2) :
      SingleFieldDiff ⟨b, s, u, d, sh1⟩ ⟨b, s, u, d, sh2⟩

/-- The information about an argument configuration that the encoder can see:
the sharding tri-state enters only through the comparison with ALLOWED. -/
def argObs (a : Arg) : Bool × Bool × Bool × List Char × Option (List Int) :=
  (a.is_same_data_across_replicas,
   decide (a.enable_xla_sharding = EnableXlaSharding.ALLOWED),
   a.unrestricted_layout, a.dtype, a.shape)

/-- Metadata record with everything empty, used for concrete instances. -/
def mdEmpty : TPUCompileMetadataProto :=
  { args := [], device_assignment := none, num_replicas := 0,
    num_cores_per_replica := 0, session_handle := [],
    guaranteed_const_fingerprint := [] }

/-- Appending on the left is cancellative. -/
theorem app_cancel_left {α : Type} (A : List α) {x y : List α}
    (h : A ++ x = A ++ y) : x = y := by
  induction A with
  | nil => exact h
  | cons a A ih =>
    apply ih
    simpa using h

/-- Appending on the right is cancellative. -/
theorem app_cancel_right {α : Type} (B : List α) {x y : List α}
    (h : x ++ B = y ++ B) : x = y := by
  have h2 : B.reverse ++ x.reverse = B.reverse ++ y.reverse := by
    simpa [List.reverse_append] using congrArg List.reverse h
  have h3 := app_cancel_left B.reverse h2
  simpa using congrArg List.reverse h3

/-- A separator that occurs in neither prefix splits a concatenation
unambiguously. -/
theorem app_sep_split {α : Type} {sep : α} :
    ∀ {a b s t : List α}, (∀ c ∈ a, c ≠ sep) → (∀ c ∈ b, c ≠ sep) →
      a ++ sep :: s = b ++ sep :: t → a = b ∧ s = t := by
  intro a
  induction a with
  | nil =>
    intro b s t _ hb h
    cases b with
    | nil => simpa using h
    | cons y ys =>
      simp only [List.nil_append, List.cons_append, List.cons.injEq] at h
      exact absurd h.1.symm (hb y (by simp))
  | cons x xs ih =>
    intro b s t ha hb h
    cases b with
    | nil =>
      simp only [List.nil_append, List.cons_append, List.cons.injEq] at h
      exact absurd h.1 (ha x (by simp))
    | cons y ys =>
      simp only [List.cons_append, List.cons.injEq] at h
      obtain ⟨hxy, hrest⟩ := h
      obtain ⟨h1, h2⟩ := ih (fun c hc => ha c (by simp [hc]))
        (fun c hc => hb c (by simp [hc])) hrest
      exact ⟨by rw [hxy, h1], h2⟩

/-- encList distributes over list concatenation. -/
theorem encList_append {α : Type} (f : α → List Char) (l1 l2 : List α) :
    encList f (l1 ++ l2) = encList f l1 ++ encList f l2 := by
  induction l1 with
  | nil => simp [encList]
  | cons x xs ih => simp [encList, ih]

/-- A character of an encList concatenation comes from one of the elements. -/
theorem mem_encList {α : Type} {f : α → List Char} {c : Char} :
    ∀ {l : List α}, c ∈ encList f l → ∃ x, x ∈ l ∧ c ∈ f x := by
  intro l
  induction l with
  | nil => intro h; exact absurd h (by simp [encList])
  | cons x xs ih =>
    intro h
    rw [encList] at h
    rcases List.mem_append.mp h with h1 | h2
    · exact ⟨x, by simp, h1⟩
    · obtain ⟨y, hy, hc⟩ := ih h2
      exact ⟨y, by simp [hy], hc⟩

/-- Separator-terminated token encodings are injective when the tokens are
separator-free and the token map is injective. -/
theorem encList_sep_inj {α : Type} (g : α → List Char) (sep : Char)
    (hfree : ∀ x c, c ∈ g x → c ≠ sep)
    (ginj : ∀ x y, g x = g y → x = y) :
    ∀ l1 l2 : List α,
      encList (fun x => g x ++ [sep]) l1 = encList (fun x => g x ++ [sep]) l2 →
      l1 = l2 := by
  intro l1
  induction l1 with
  | nil =>
    intro l2 h
    cases l2 with
    | nil => rfl
    | cons y ys =>
      rw [encList, encList] at h
      simp at h
  | cons x xs ih =>
    intro l2 h
    cases l2 with
    | nil =>
      rw [encList, encList] at h
      simp at h
    | cons y ys =>
      rw [encList, encList] at h
      simp only [List.append_assoc, List.singleton_append] at h
      obtain ⟨h1, h2⟩ := app_sep_split (hfree x) (hfree y) h
      rw [ginj x y h1, ih ys h2]

/-- A decimal digit character has its expected code point. -/
theorem digitCh_toNat {d : Nat} (hd : d < 10) : (digitCh d).toNat = 48 + d := by
  interval_cases d <;> decide

/-- Reading back a decimal digit character recovers the digit. -/
theorem chDigit_digitCh {d : Nat} (hd : d < 10) : chDigit (digitCh d) = d := by
  interval_cases d <;> decide

/-- Every character produced by natDecAux is a decimal digit character. -/
theorem natDecAux_mem : ∀ {fuel n : Nat} {c : Char}, c ∈ natDecAux fuel n →
    ∃ d, d < 10 ∧ c = digitCh d := by
  intro fuel
  induction fuel with
  | zero => intro n c h; exact absurd h (by simp [natDecAux])
  | succ fuel ih =>
    intro n c h
    rw [natDecAux] at h
    by_cases hn : n = 0
    · simp [hn] at h
    · rw [if_neg hn] at h
      rcases List.mem_append.mp h with h1 | h2
      · exact ih h1
      · exact ⟨n % 10, Nat.mod_lt n (by omega), by simpa using h2⟩

/-- Every character of a rendered natural number is a decimal digit. -/
theorem natDec_mem {n : Nat} {c : Char} (h : c ∈ natDec n) :
    ∃ d, d < 10 ∧ c = digitCh d := by
  rw [natDec] at h
  by_cases hn : n = 0
  · exact ⟨0, by omega, by simpa [hn] using h⟩
  · exact natDecAux_mem (by rwa [if_neg hn] at h)

/-- Code-point range of the characters of a rendered natural number. -/
theorem natDec_toNat_range {n : Nat} {c : Char} (h : c ∈ natDec n) :
    48 ≤ c.toNat ∧ c.toNat ≤ 57 := by
  obtain ⟨d, hd, rfl⟩ := natDec_mem h
  rw [digitCh_toNat hd]
  omega

/-- Folding the digit values back over a natDecAux rendering recovers the
number, for sufficient fuel. -/
theorem natDecAux_foldl : ∀ (fuel n acc : Nat), n ≤ fuel →
    (natDecAux fuel n).foldl (fun a c => a * 10 + chDigit c) acc =
      acc * 10 ^ (natDecAux fuel n).length + n := by
  intro fuel
  induction fuel with
  | zero =>
    intro n acc hn
    interval_cases n
    simp [natDecAux]
  | succ fuel ih =>
    intro n acc hn
    rw [natDecAux]
    by_cases h0 : n = 0
    · simp [h0]
    · rw [if_neg h0]
      have hdiv : n / 10 ≤ fuel := by
        have := Nat.div_lt_self (Nat.pos_of_ne_zero h0) (by omega : 1 < 10)
        omega
      rw [List.foldl_append, ih (n / 10) acc hdiv]
      simp only [List.foldl_cons, List.foldl_nil, List.length_append,
        List.length_cons, List.length_nil]
      rw [chDigit_digitCh (Nat.mod_lt n (by omega))]
      calc (acc * 10 ^ (natDecAux fuel (n / 10)).length + n / 10) * 10 + n % 10
          = acc * (10 ^ (natDecAux fuel (n / 10)).length * 10) +
              (n / 10 * 10 + n % 10) := by ring
        _ = acc * 10 ^ ((natDecAux fuel (n / 10)).length + (0 + 1)) + n := by
              rw [Nat.div_add_mod' n 10, pow_succ]

/-- Reading a rendered natural number back as a decimal numeral recovers it. -/
theorem natDec_foldl (n : Nat) :
    (natDec n).foldl (fun a c => a * 10 + chDigit c) 0 = n := by
  rw [natDec]
  by_cases h0 : n = 0
  · rw [if_pos h0, h0]
    decide
  · rw [if_neg h0]
    simpa using natDecAux_foldl n n 0 le_rfl

/-- Decimal rendering of natural numbers is injective. -/
theorem natDec_inj {m n : Nat} (h : natDec m = natDec n) : m = n := by
  have hm := natDec_foldl m
  rw [h, natDec_foldl n] at hm
  exact hm.symm

/-- A rendered natural number is never the empty string. -/
theorem natDec_ne_nil (n : Nat) : natDec n ≠ [] := by
  rw [natDec]
  by_cases h0 : n = 0
  · simp [h0]
  · rw [if_neg h0]
    cases n with
    | zero => exact absurd rfl h0
    | succ m => simp [natDecAux, h0]

/-- No comma occurs in a rendered natural number. -/
theorem natDec_ne_comma {n : Nat} {c : Char} (h : c ∈ natDec n) : c ≠ ',' := by
  intro he
  have hr := natDec_toNat_range h
  rw [he] at hr
  have hv : (',').toNat = 44 := rfl
  omega

/-- No semicolon occurs in a rendered natural number. -/
theorem natDec_ne_semicolon {n : Nat} {c : Char} (h : c ∈ natDec n) : c ≠ ';' := by
  intro he
  have hr := natDec_toNat_range h
  rw [he] at hr
  have hv : (';').toNat = 59 := rfl
  omega

/-- No minus sign occurs in a rendered natural number. -/
theorem natDec_ne_dash {n : Nat} {c : Char} (h : c ∈ natDec n) : c ≠ '-' := by
  intro he
  have hr := natDec_toNat_range h
  rw [he] at hr
  have hv : ('-').toNat = 45 := rfl
  omega

/-- Characters of a rendered integer: the sign or a decimal digit. -/
theorem intDec_mem_toNat {i : Int} {c : Char} (h : c ∈ intDec i) :
    c.toNat = 45 ∨ (48 ≤ c.toNat ∧ c.toNat ≤ 57) := by
  rw [intDec] at h
  by_cases hi : i < 0
  · rw [if_pos hi] at h
    rcases List.mem_cons.mp h with h1 | h2
    · left; rw [h1]; rfl
    · right; exact natDec_toNat_range h2
  · rw [if_neg hi] at h
    right
    exact natDec_toNat_range h

/-- No comma occurs in a rendered integer. -/
theorem intDec_ne_comma {i : Int} {c : Char} (h : c ∈ intDec i) : c ≠ ',' := by
  intro he
  have hr := intDec_mem_toNat h
  rw [he] at hr
  have hv : (',').toNat = 44 := rfl
  omega

/-- Decimal rendering of integers is injective. -/
theorem intDec_inj {i j : Int} (h : intDec i = intDec j) : i = j := by
  rw [intDec, intDec] at h
  by_cases hi : i < 0 <;> by_cases hj : j < 0
  · rw [if_pos hi, if_pos hj] at h
    have habs : i.natAbs = j.natAbs := natDec_inj (by simpa using h)
    omega
  · rw [if_pos hi, if_neg hj] at h
    have hm : ('-') ∈ natDec j.natAbs := by rw [← h]; simp
    exact absurd rfl (natDec_ne_dash hm)
  · rw [if_neg hi, if_pos hj] at h
    have hm : ('-') ∈ natDec i.natAbs := by rw [h]; simp
    exact absurd rfl (natDec_ne_dash hm)
  · rw [if_neg hi, if_neg hj] at h
    have habs : i.natAbs = j.natAbs := natDec_inj h
    omega

/-- The comma-terminated dimension encoding of a static shape is injective. -/
theorem dimsEnc_inj {d1 d2 : List Int} (h : dimsEnc d1 = dimsEnc d2) : d1 = d2 :=
  encList_sep_inj intDec ',' (fun _ _ hc => intDec_ne_comma hc)
    (fun _ _ hxy => intDec_inj hxy) d1 d2 h

/-- The optional static-shape fragment of the argument encoding is injective. -/
theorem shapeMarker_inj {sh1 sh2 : Option (List Int)}
    (h : shapeMarker sh1 = shapeMarker sh2) : sh1 = sh2 := by
  cases sh1 with
  | none =>
    cases sh2 with
    | none => rfl
    | some d2 =>
      rw [shapeMarker, shapeMarker,
        show chars ",shape(" = ',' :: chars "shape(" from rfl] at h
      simp at h
  | some d1 =>
    cases sh2 with
    | none =>
      rw [shapeMarker, shapeMarker,
        show chars ",shape(" = ',' :: chars "shape(" from rfl] at h
      simp at h
    | some d2 =>
      rw [shapeMarker, shapeMarker] at h
      have h1 := app_cancel_left (chars ",shape(") h
      have h2 := app_cancel_right [')'] h1
      rw [dimsEnc_inj h2]


/-- The replica-sharing marker determines the flag. -/
theorem sameMarker_inj : ∀ b1 b2 : Bool, sameMarker b1 = sameMarker b2 ↔ b1 = b2 := by
  decide

/-- The layout marker determines the flag. -/
theorem layoutMarker_inj : ∀ u1 u2 : Bool, layoutMarker u1 = layoutMarker u2 ↔ u1 = u2 := by
  decide

/-- The sharding marker carries exactly the comparison with ALLOWED. -/
theorem shardingMarker_obs : ∀ s1 s2 : EnableXlaSharding,
    shardingMarker s1 = shardingMarker s2 ↔
      decide (s1 = EnableXlaSharding.ALLOWED) = decide (s2 = EnableXlaSharding.ALLOWED) := by
  decide

/-- Two argument configurations differing in exactly one field encode equally
precisely when the encoder-visible projection is unchanged; for every
field except the sharding tri-state any change is visible. -/
theorem encodeArg_eq_iff {x y : Arg} (hd : SingleFieldDiff x y) :
    (encodeArg x = encodeArg y ↔ argObs x = argObs y) := by
  cases hd with
  | same_flag h =>
    rename_i b1 b2 s u d sh
    constructor
    · intro he
      exfalso
      apply h
      simp only [encodeArg] at he
      exact (sameMarker_inj b1 b2).mp (app_cancel_right _ he)
    · intro ho
      exfalso
      exact h (congrArg (fun t => t.1) ho)
  | sharding h =>
    rename_i s1 s2 b u d sh
    constructor
    · intro he
      simp only [encodeArg] at he
      have h1 := app_cancel_left _ he
      have h2 := app_cancel_right _ h1
      simp only [argObs]
      rw [(shardingMarker_obs s1 s2).mp h2]
    · intro ho
      have hs := (shardingMarker_obs s1 s2).mpr (congrArg (fun t => t.2.1) ho)
      simp only [encodeArg]
      rw [hs]
  | layout_flag h =>
    rename_i u1 u2 b s d sh
    constructor
    · intro he
      exfalso
      apply h
      simp only [encodeArg] at he
      have h1 := app_cancel_left _ he
      have h2 := app_cancel_left _ h1
      exact (layoutMarker_inj u1 u2).mp (app_cancel_right _ h2)
    · intro ho
      exfalso
      exact h (congrArg (fun t => t.2.2.1) ho)
  | dtype_tag h =>
    rename_i d1 d2 b s u sh
    constructor
    · intro he
      exfalso
      apply h
      simp only [encodeArg] at he
      have h1 := app_cancel_left _ he
      have h2 := app_cancel_left _ h1
      have h3 := app_cancel_left _ h2
      have h4 := app_cancel_left _ h3
      exact app_cancel_right _ h4
    · intro ho
      exfalso
      exact h (congrArg (fun t => t.2.2.2.1) ho)
  | static_shape h =>
    rename_i sh1 sh2 b s u d
    constructor
    · intro he
      exfalso
      apply h
      simp only [encodeArg] at he
      have h1 := app_cancel_left _ he
      have h2 := app_cancel_left _ h1
      have h3 := app_cancel_left _ h2
      have h4 := app_cancel_left _ h3
      have h5 := app_cancel_left _ h4
      have h6 := app_cancel_left _ h5
      exact shapeMarker_inj h6
    · intro ho
      exfalso
      exact h (congrArg (fun t => t.2.2.2.2) ho)

/-- CreateConfigPrefix on an argument list with one position singled out. -/
theorem configPrefix_context (metadata : TPUCompileMetadataProto)
    (pre post : List Arg) (x : Arg) :
    CreateConfigPrefix { metadata with args := pre ++ x :: post } =
      encList encodeArg pre ++ (encodeArg x ++ encList encodeArg post) := by
  show encList encodeArg (pre ++ x :: post) = _
  rw [encList_append, encList]

/-- Claim C1 (amended): for two argument-config sequences that differ in
exactly one field of one argument, CreateConfigPrefix produces two
different strings precisely when the changed field is encoder-visible:
any change of the same-across-replicas flag, the unrestricted-layout
flag, the element type tag, or the presence or contents of the optional
static shape yields distinct encodings, while the sharding tri-state is
encoded only through its comparison with ALLOWED, so DISALLOWED and
UNSPECIFIED collapse to the same encoding. -/
theorem claim_C1_amended (metadata : TPUCompileMetadataProto)
    (pre post : List Arg) {x y : Arg} (hd : SingleFieldDiff x y) :
    (CreateConfigPrefix { metadata with args := pre ++ x :: post } =
      CreateConfigPrefix { metadata with args := pre ++ y :: post } ↔
      argObs x = argObs y) := by
  rw [configPrefix_context, configPrefix_context]
  constructor
  · intro h
    have h1 := app_cancel_left _ h
    have h2 := app_cancel_right _ h1
    exact (encodeArg_eq_iff hd).mp h2
  · intro h
    rw [(encodeArg_eq_iff hd).mpr h]

/-- Argument configuration with sharding DISALLOWED, used in instances. -/
def argDis : Arg :=
  { is_same_data_across_replicas := false,
    enable_xla_sharding := EnableXlaSharding.DISALLOWED,
    unrestricted_layout := false, dtype := chars "int32", shape := none }

/-- The same configuration with sharding left at its unspecified default. -/
def argUns : Arg := { argDis with enable_xla_sharding := EnableXlaSharding.UNSPECIFIED }

/-- The same configuration with a different element type tag. -/
def argF32 : Arg := { argDis with dtype := chars "float32" }

/-- Claim C1 counterexample: two sequences that differ in exactly one field
of one argument (the sharding tri-state, DISALLOWED against the
unspecified default) receive the same encoding, so the three sharding
states are not pairwise distinguished. -/
theorem claim_C1_counterexample :
    argDis ≠ argUns ∧
    SingleFieldDiff argDis argUns ∧
    CreateConfigPrefix { mdEmpty with args := [argDis] } =
      CreateConfigPrefix { mdEmpty with args := [argUns] } := by
  refine ⟨by decide, ?_, by decide⟩
  exact SingleFieldDiff.sharding (by decide)

/-- Witness for claim C1: the amended equivalence applied to a concrete
single-field dtype difference. -/
theorem claim_C1_witness :
    (CreateConfigPrefix { mdEmpty with args := [argDis] } =
      CreateConfigPrefix { mdEmpty with args := [argF32] } ↔
      argObs argDis = argObs argF32) :=
  claim_C1_amended mdEmpty [] [] (SingleFieldDiff.dtype_tag (by decide))

/-- The shape-prefix encoder is injective: the terminators make dimension
lists and shape boundaries unambiguous. -/
theorem createShapePrefix_inj {l1 l2 : List (List Nat)}
    (h : CreateShapePrefix l1 = CreateShapePrefix l2) : l1 = l2 := by
  refine encList_sep_inj (fun shape => encList (fun size => natDec size ++ [',']) shape)
    ';' ?_ ?_ l1 l2 h
  · intro s c hc
    obtain ⟨d, _, hcd⟩ := mem_encList hc
    rcases List.mem_append.mp hcd with h1 | h2
    · exact natDec_ne_semicolon h1
    · have hc2 : c = ',' := List.mem_singleton.mp h2
      rw [hc2]
      decide
  · exact encList_sep_inj natDec ',' (fun _ _ hc => natDec_ne_comma hc)
      (fun _ _ hxy => natDec_inj hxy)

/-- Claim C2: CreateShapePrefix maps two shape sequences to the same string
exactly when they are equal position by position, and the concrete
encodings of the spec examples hold. -/
theorem claim_C2 :
    (∀ l1 l2 : List (List Nat), CreateShapePrefix l1 = CreateShapePrefix l2 ↔ l1 = l2) ∧
    CreateShapePrefix [[2, 3]] = chars "2,3,;" ∧
    CreateShapePrefix [[2, 3], []] = chars "2,3,;;" ∧
    CreateShapePrefix [] = chars "" := by
  refine ⟨?_, by decide, by decide, by decide⟩
  intro l1 l2
  constructor
  · exact createShapePrefix_inj
  · intro h
    rw [h]

/-- Folding with an attached counter: the counter adds the list length. -/
theorem foldl_pair_count {α β : Type} (f : β → α → β) :
    ∀ (l : List α) (b : β) (k : Nat),
      l.foldl (fun st x => (f st.1 x, st.2 + 1)) (b, k) = (l.foldl f b, k + l.length) := by
  intro l
  induction l with
  | nil => intro b k; simp
  | cons x xs ih =>
    intro b k
    simp only [List.foldl_cons, List.length_cons]
    rw [ih (f b x) (k + 1)]
    have hk : k + 1 + xs.length = k + (xs.length + 1) := by omega
    rw [hk]

/-- The extracted constants list has the requested length. -/
theorem extractConstants_length (arr : Nat → Tensor) :
    ∀ n, (extractConstants arr n).length = n := by
  intro n
  induction n with
  | zero => rfl
  | succ n ih => simp [extractConstants, ih]

/-- The index loop of GuaranteedConstFingerprint equals the fold over the
materialized constants list. -/
theorem rangeFold_extract (rh : Nat → List Nat → Nat) (arr : Nat → Tensor) :
    ∀ (n : Nat) (a : Nat),
      (List.range n).foldl (fun acc i => rh acc (arr i).data % 2 ^ 64) a =
        (extractConstants arr n).foldl (fun acc t => rh acc t.data % 2 ^ 64) a := by
  intro n
  induction n with
  | zero => intro a; simp [extractConstants]
  | succ n ih =>
    intro a
    rw [List.range_succ, List.foldl_append, extractConstants, List.foldl_append, ih]
    rfl

/-- GuaranteedConstFingerprint agrees with its list form on the materialized
first guaranteed_constants_size array elements. -/
theorem guaranteedConstFingerprint_eq_list (rh : Nat → List Nat → Nat)
    (fingerprint_in_metadata : List Char) (arr : Nat → Tensor) (n : Nat) :
    GuaranteedConstFingerprint rh fingerprint_in_metadata arr n =
      guaranteedConstFingerprintL rh fingerprint_in_metadata (extractConstants arr n) := by
  simp only [GuaranteedConstFingerprint, guaranteedConstFingerprintL]
  by_cases hf : fingerprint_in_metadata = []
  · rw [if_pos hf, if_pos hf,
      foldl_pair_count (fun a i => rh a (arr i).data % 2 ^ 64) (List.range n) 0 0,
      foldl_pair_count (fun a t => rh a t.data % 2 ^ 64) (extractConstants arr n) 0 0,
      rangeFold_extract]
    simp [extractConstants_length]
  · rw [if_neg hf, if_neg hf]

/-- Claim C3: determinism of the derivation. Under the assumption that the
native key-construction primitive is a deterministic function of its
input property, any two keys derived by the relational semantics from
the same fixed inputs carry byte-identical prefix strings. -/
theorem claim_C3
    (native : CompilationCacheKeyProperty → CompilationCacheKeyResult → Prop)
    (function_name : List Char) (function_library_fingerprint : Nat)
    (mlir_module : List Char) (guaranteed_constants : Option (Nat → Tensor))
    (guaranteed_constants_size : Nat) (dynamic_shapes : List (List Nat))
    (metadata : TPUCompileMetadataProto) (mesh_state : Nat)
    (k1 k2 : TpuCompilationCacheKey)
    (hdet : ∀ p r1 r2, native p r1 → native p r2 → r1 = r2)
    (h1 : CreateKeyRel native function_name function_library_fingerprint mlir_module
      guaranteed_constants guaranteed_constants_size dynamic_shapes metadata
      mesh_state k1)
    (h2 : CreateKeyRel native function_name function_library_fingerprint mlir_module
      guaranteed_constants guaranteed_constants_size dynamic_shapes metadata
      mesh_state k2) :
    k1.keyPrefix = k2.keyPrefix := by
  obtain ⟨r1, hr1, hk1⟩ := h1
  obtain ⟨r2, hr2, hk2⟩ := h2
  rw [hk1, hk2, hdet _ r1 r2 hr1 hr2]

/-- A concrete deterministic native primitive used in concrete instances. -/
def nativeEcho : CompilationCacheKeyProperty → CompilationCacheKeyResult :=
  fun p => { key := p.functionName, debug_string := [] }

/-- Witness for claim C3 at concrete inputs: the two derived keys have the
same prefix. -/
theorem claim_C3_witness :
    (createCompilationCacheKeyPtr nativeEcho (chars "f") 1 [] none 0 [] mdEmpty
        0).keyPrefix =
      (createCompilationCacheKeyPtr nativeEcho (chars "f") 1 [] none 0 [] mdEmpty
        0).keyPrefix :=
  claim_C3 (fun p r => r = nativeEcho p) (chars "f") 1 [] none 0 [] mdEmpty 0
    (createCompilationCacheKeyPtr nativeEcho (chars "f") 1 [] none 0 [] mdEmpty 0)
    (createCompilationCacheKeyPtr nativeEcho (chars "f") 1 [] none 0 [] mdEmpty 0)
    (fun _ _ _ ha hb => ha.trans hb.symm)
    ⟨nativeEcho (mkProperty (chars "f") 1 [] 0 [] mdEmpty 0), rfl, rfl⟩
    ⟨nativeEcho (mkProperty (chars "f") 1 [] 0 [] mdEmpty 0), rfl, rfl⟩

/-- Claim C4: GuaranteedConstFingerprint returns the metadata-supplied
fingerprint verbatim, with zero rolling-hash invocations, whenever that
string is non-empty; otherwise it renders in decimal the 64-bit
accumulator obtained by folding each constant's raw bytes through the
rolling hash in sequence order, one invocation per constant. -/
theorem claim_C4 (rh : Nat → List Nat → Nat) (fingerprint_in_metadata : List Char)
    (arr : Nat → Tensor) (n : Nat) :
    (fingerprint_in_metadata ≠ [] →
      GuaranteedConstFingerprint rh fingerprint_in_metadata arr n =
        (fingerprint_in_metadata, 0)) ∧
    (fingerprint_in_metadata = [] →
      GuaranteedConstFingerprint rh fingerprint_in_metadata arr n =
        (natDec ((extractConstants arr n).foldl
          (fun acc t => rh acc t.data % 2 ^ 64) 0), n)) := by
  constructor
  · intro hne
    rw [GuaranteedConstFingerprint, if_neg hne]
  · intro he
    rw [guaranteedConstFingerprint_eq_list]
    simp only [guaranteedConstFingerprintL, if_pos he]
    rw [foldl_pair_count (fun a t => rh a t.data % 2 ^ 64) (extractConstants arr n) 0 0]
    simp [extractConstants_length]

/-- A concrete rolling hash used in concrete instances. -/
def rhSum : Nat → List Nat → Nat :=
  fun a bs => a + bs.foldl (fun x y => x + y) 0 + 1

/-- A concrete constants array used in concrete instances. -/
def tensorsAB : Nat → Tensor := fun i => { data := [i + 1] }

/-- Witness for claim C4: both branches at concrete inputs. -/
theorem claim_C4_witness :
    GuaranteedConstFingerprint rhSum (chars "abc123") tensorsAB 2 =
      (chars "abc123", 0) ∧
    GuaranteedConstFingerprint rhSum [] tensorsAB 2 =
      (natDec ((extractConstants tensorsAB 2).foldl
        (fun acc t => rhSum acc t.data % 2 ^ 64) 0), 2) :=
  ⟨(claim_C4 rhSum (chars "abc123") tensorsAB 2).1 (by decide),
   (claim_C4 rhSum [] tensorsAB 2).2 rfl⟩

/-- The fingerprint the closure computes is never the empty string, which is
what makes the emptiness test a sound memoization guard. -/
theorem gcfl_ne_nil (rh : Nat → List Nat → Nat) (fingerprint_in_metadata : List Char)
    (cs : List Tensor) :
    (guaranteedConstFingerprintL rh fingerprint_in_metadata cs).1 ≠ [] := by
  rw [guaranteedConstFingerprintL]
  by_cases hf : fingerprint_in_metadata = []
  · rw [if_pos hf]
    exact natDec_ne_nil _
  · rw [if_neg hf]
    exact hf

/-- Once the cache is non-empty, every further closure invocation returns the
cached string with no recomputation and no rolling-hash call. -/
theorem closureRun_cached (rh : Nat → List Nat → Nat) :
    ∀ (m : Nat) (c : FingerprintClosure), c.cache ≠ [] →
      closureRun rh m c = (List.replicate m c.cache, c, 0, 0) := by
  intro m
  induction m with
  | zero => intro c _; rfl
  | succ m ih =>
    intro c hc
    simp only [closureRun, closureCall, if_neg hc]
    rw [ih c hc]
    simp [List.replicate_succ]

/-- Claim C5: when constants are present, the key's fingerprint closure is
created with an empty cache (nothing is computed at key-construction
time), and across any positive number k of invocations the underlying
GuaranteedConstFingerprint computation runs exactly once - on the first
invocation, which also accounts for all rolling-hash calls - while every
invocation returns the same fingerprint string. -/
theorem claim_C5 (rh : Nat → List Nat → Nat)
    (native : CompilationCacheKeyProperty → CompilationCacheKeyResult)
    (function_name : List Char) (function_library_fingerprint : Nat)
    (mlir_module : List Char) (arr : Nat → Tensor) (n : Nat)
    (dynamic_shapes : List (List Nat)) (metadata : TPUCompileMetadataProto)
    (mesh_state : Nat) (k : Nat) (cl : FingerprintClosure)
    (hn : 0 < n) (hk : 0 < k)
    (hcl : (createCompilationCacheKeyPtr native function_name
        function_library_fingerprint mlir_module (some arr) n dynamic_shapes
        metadata mesh_state).guaranteed_const_fingerprint = some cl) :
    cl.cache = [] ∧
    closureRun rh k cl =
      (List.replicate k (guaranteedConstFingerprintL rh
          metadata.guaranteed_const_fingerprint cl.constants).1,
        { cl with cache := (guaranteedConstFingerprintL rh
          metadata.guaranteed_const_fingerprint cl.constants).1 },
        1,
        (guaranteedConstFingerprintL rh
          metadata.guaranteed_const_fingerprint cl.constants).2) := by
  have hcl2 : cl =
      { metadata := metadata, constants := extractConstants arr n, cache := [] } := by
    simp only [createCompilationCacheKeyPtr, assembleKey, if_pos hn] at hcl
    exact (Option.some.inj hcl).symm
  subst hcl2
  refine ⟨rfl, ?_⟩
  obtain ⟨m, rfl⟩ : ∃ m, k = m + 1 := ⟨k - 1, by omega⟩
  simp only [closureRun, closureCall, if_pos rfl]
  rw [closureRun_cached rh m _ (gcfl_ne_nil rh _ _)]
  simp [List.replicate_succ]

/-- Metadata with a session handle, used in concrete instances. -/
def mdWithSession : TPUCompileMetadataProto := { mdEmpty with session_handle := chars "sess" }

/-- Closure state attached by the key built over one concrete constant. -/
def clW : FingerprintClosure :=
  { metadata := mdWithSession, constants := extractConstants tensorsAB 1, cache := [] }

/-- Witness for claim C5: two invocations on the concrete key's closure
return the fingerprint twice, computing it exactly once. -/
theorem claim_C5_witness :
    clW.cache = [] ∧
    closureRun rhSum 2 clW =
      (List.replicate 2 (guaranteedConstFingerprintL rhSum
          mdWithSession.guaranteed_const_fingerprint clW.constants).1,
        { clW with cache := (guaranteedConstFingerprintL rhSum
          mdWithSession.guaranteed_const_fingerprint clW.constants).1 },
        1,
        (guaranteedConstFingerprintL rhSum
          mdWithSession.guaranteed_const_fingerprint clW.constants).2) :=
  claim_C5 rhSum nativeEcho (chars "f") 1 [] tensorsAB 1 [] mdWithSession 0 2 clW
    (by decide) (by decide) (by decide)

/-- extractConstants depends only on the array below the extraction size. -/
theorem extractConstants_congr (f g : Nat → Tensor) :
    ∀ n, (∀ i, i < n → f i = g i) → extractConstants f n = extractConstants g n := by
  intro n
  induction n with
  | zero => intro _; rfl
  | succ n ih =>
    intro h
    rw [extractConstants, extractConstants, ih (fun i hi => h i (by omega)),
      h n (by omega)]

/-- Extracting length-many elements through positional lookup rebuilds the
list. -/
theorem extractConstants_getD (l : List Tensor) :
    extractConstants (fun i => l.getD i { data := [] }) l.length = l := by
  induction l using List.reverseRecOn with
  | nil => rfl
  | append_singleton l x ih =>
    have h1 : extractConstants (fun i => (l ++ [x]).getD i { data := [] }) l.length =
        extractConstants (fun i => l.getD i { data := [] }) l.length :=
      extractConstants_congr _ _ l.length
        (fun i hi => List.getD_append l [x] { data := [] } i hi)
    have h2 : (l ++ [x]).getD l.length { data := [] } = x := by
      rw [List.getD_append_right l [x] { data := [] } l.length le_rfl]
      simp
    rw [List.length_append, List.length_singleton, extractConstants, h1, ih, h2]

/-- The assembled key depends on the constants array only through the
extracted constants list. -/
theorem assembleKey_congr_arr (r : CompilationCacheKeyResult) (f g : Nat → Tensor)
    (n : Nat) (metadata : TPUCompileMetadataProto)
    (h : extractConstants f n = extractConstants g n) :
    assembleKey r (some f) n metadata = assembleKey r (some g) n metadata := by
  simp only [assembleKey]
  by_cases hn : 0 < n
  · rw [if_pos hn, if_pos hn, h]
  · rw [if_neg hn, if_neg hn]

/-- With size zero, a null and a non-null constants array assemble the same
key. -/
theorem assembleKey_none_eq_some_zero (r : CompilationCacheKeyResult)
    (g : Nat → Tensor) (metadata : TPUCompileMetadataProto) :
    assembleKey r none 0 metadata = assembleKey r (some g) 0 metadata := by
  simp [assembleKey]

/-- Claim C6: for the same logical constants sequence, the OpInputList
overload produces a key identical to the pointer+length form - the whole
key record, so in particular the prefix and has_guaranteed_const. -/
theorem claim_C6
    (native : CompilationCacheKeyProperty → CompilationCacheKeyResult)
    (function_name : List Char) (function_library_fingerprint : Nat)
    (mlir_module : List Char) (guaranteed_constants : List Tensor)
    (arr : Nat → Tensor) (dynamic_shapes : List (List Nat))
    (metadata : TPUCompileMetadataProto) (mesh_state : Nat)
    (harr : ∀ i, i < guaranteed_constants.length →
      arr i = guaranteed_constants.getD i { data := [] }) :
    createCompilationCacheKeyList native function_name function_library_fingerprint
      mlir_module guaranteed_constants dynamic_shapes metadata mesh_state =
    createCompilationCacheKeyPtr native function_name function_library_fingerprint
      mlir_module (some arr) guaranteed_constants.length dynamic_shapes metadata
      mesh_state := by
  rw [createCompilationCacheKeyList]
  by_cases hl : 0 < guaranteed_constants.length
  · rw [if_pos hl, createCompilationCacheKeyPtr, createCompilationCacheKeyPtr]
    apply assembleKey_congr_arr
    apply extractConstants_congr
    intro i hi
    exact (harr i hi).symm
  · rw [if_neg hl]
    have h0 : guaranteed_constants.length = 0 := by omega
    rw [h0, createCompilationCacheKeyPtr, createCompilationCacheKeyPtr]
    exact assembleKey_none_eq_some_zero _ arr _

/-- Concrete constants list used in the claim C6 witness. -/
def constsW : List Tensor := [{ data := [7] }, { data := [8] }]

/-- Witness for claim C6 at a concrete two-element constants list. -/
theorem claim_C6_witness :
    createCompilationCacheKeyList nativeEcho (chars "f") 1 [] constsW [] mdEmpty 0 =
      createCompilationCacheKeyPtr nativeEcho (chars "f") 1 []
        (some (fun i => constsW.getD i { data := [] })) constsW.length [] mdEmpty 0 :=
  claim_C6 nativeEcho (chars "f") 1 [] constsW
    (fun i => constsW.getD i { data := [] }) [] mdEmpty 0 (fun _ _ => rfl)

/-- Claim C7: with an empty constants sequence the returned key is exactly
the default-assembled key: prefix and debug string copied from the
native result, has_guaranteed_const false, session_handle left at its
default empty value, and no fingerprint closure attached. -/
theorem claim_C7
    (native : CompilationCacheKeyProperty → CompilationCacheKeyResult)
    (function_name : List Char) (function_library_fingerprint : Nat)
    (mlir_module : List Char) (guaranteed_constants : Option (Nat → Tensor))
    (guaranteed_constants_size : Nat) (dynamic_shapes : List (List Nat))
    (metadata : TPUCompileMetadataProto) (mesh_state : Nat)
    (h : guaranteed_constants = none ∨ guaranteed_constants_size = 0) :
    createCompilationCacheKeyPtr native function_name function_library_fingerprint
      mlir_module guaranteed_constants guaranteed_constants_size dynamic_shapes
      metadata mesh_state =
    { keyPrefix := (native (mkProperty function_name function_library_fingerprint
        mlir_module guaranteed_constants_size dynamic_shapes metadata mesh_state)).key,
      debug_string := (native (mkProperty function_name function_library_fingerprint
        mlir_module guaranteed_constants_size dynamic_shapes metadata
        mesh_state)).debug_string,
      has_guaranteed_const := false, session_handle := [],
      guaranteed_const_fingerprint := none } := by
  rw [createCompilationCacheKeyPtr]
  rcases h with h | h
  · rw [h]
    rfl
  · subst h
    cases guaranteed_constants with
    | none => rfl
    | some arr => simp [assembleKey]

/-- Witness for claim C7 at concrete inputs with no constants. -/
theorem claim_C7_witness :
    createCompilationCacheKeyPtr nativeEcho (chars "g") 2 [] none 0 [] mdEmpty 0 =
      { keyPrefix := (nativeEcho (mkProperty (chars "g") 2 [] 0 [] mdEmpty 0)).key,
        debug_string := (nativeEcho (mkProperty (chars "g") 2 [] 0 [] mdEmpty
          0)).debug_string,
        has_guaranteed_const := false, session_handle := [],
        guaranteed_const_fingerprint := none } :=
  claim_C7 nativeEcho (chars "g") 2 [] none 0 [] mdEmpty 0 (Or.inl rfl)

/-- The float32 argument of the claim C8 scenario, unshared. -/
def argF32u : Arg := { argUns with dtype := chars "float32" }

/-- The float32 argument of the claim C8 scenario, shared across replicas. -/
def argF32s : Arg := { argF32u with is_same_data_across_replicas := true }

/-- Claim C8: the concrete scenario derivations. One unshared int32 argument
with no dynamic shapes and no constants yields config prefix
:,type(int32), an empty shapes prefix and has_guaranteed_const false;
one shared float32 argument yields :s,type(float32), and unshared
:,type(float32). -/
theorem claim_C8 (native : CompilationCacheKeyProperty → CompilationCacheKeyResult)
    (mesh_state : Nat) :
    CreateConfigPrefix { mdEmpty with args := [argUns] } = chars ":,type(int32)" ∧
    CreateShapePrefix [] = chars "" ∧
    (createCompilationCacheKeyPtr native (chars "matmul_fn") 42 [] none 0 []
      { mdEmpty with args := [argUns] } mesh_state).has_guaranteed_const = false ∧
    CreateConfigPrefix { mdEmpty with args := [argF32s] } = chars ":s,type(float32)" ∧
    CreateConfigPrefix { mdEmpty with args := [argF32u] } = chars ":,type(float32)" := by
  refine ⟨by decide, by decide, ?_, by decide, by decide⟩
  rfl

/-- Claim C9: on both execution paths of CreateCompilationCacheKey the native
result buffer is destroyed exactly once, as the final scope-exit event,
strictly after the prefix and debug strings have been copied out. -/
theorem claim_C9 (function_name : List Char) (function_library_fingerprint : Nat)
    (mlir_module : List Char) (guaranteed_constants : Option (Nat → Tensor))
    (guaranteed_constants_size : Nat) (dynamic_shapes : List (List Nat))
    (metadata : TPUCompileMetadataProto) (mesh_state : Nat) :
    ∃ pre_events,
      createKeyTrace function_name function_library_fingerprint mlir_module
        guaranteed_constants guaranteed_constants_size dynamic_shapes metadata
        mesh_state = pre_events ++ [KeyEvent.destroyResult] ∧
      KeyEvent.destroyResult ∉ pre_events ∧
      KeyEvent.copyKeyString ∈ pre_events ∧
      KeyEvent.copyDebugString ∈ pre_events := by
  rw [createKeyTrace.eq_def]
  cases guaranteed_constants with
  | none =>
    refine ⟨[KeyEvent.nativeCreate (mkProperty function_name
        function_library_fingerprint mlir_module guaranteed_constants_size
        dynamic_shapes metadata mesh_state),
      KeyEvent.copyKeyString, KeyEvent.copyDebugString], rfl, ?_, ?_, ?_⟩
    · simp
    · simp
    · simp
  | some arr =>
    by_cases hsz : 0 < guaranteed_constants_size
    · rw [if_pos hsz]
      refine ⟨[KeyEvent.nativeCreate (mkProperty function_name
          function_library_fingerprint mlir_module guaranteed_constants_size
          dynamic_shapes metadata mesh_state),
        KeyEvent.copyKeyString, KeyEvent.copyDebugString,
        KeyEvent.setGuaranteedConstFields], rfl, ?_, ?_, ?_⟩
      · simp
      · simp
      · simp
    · rw [if_neg hsz]
      refine ⟨[KeyEvent.nativeCreate (mkProperty function_name
          function_library_fingerprint mlir_module guaranteed_constants_size
          dynamic_shapes metadata mesh_state),
        KeyEvent.copyKeyString, KeyEvent.copyDebugString], rfl, ?_, ?_, ?_⟩
      · simp
      · simp
      · simp

/-- The assembled key's prefix is always the native result's key string,
whichever branch is taken. -/
theorem assembleKey_keyPrefix (r : CompilationCacheKeyResult)
    (gc : Option (Nat → Tensor)) (n : Nat) (metadata : TPUCompileMetadataProto) :
    (assembleKey r gc n metadata).keyPrefix = r.key := by
  cases gc with
  | none => rfl
  | some arr =>
    simp only [assembleKey]
    by_cases hn : 0 < n
    · rw [if_pos hn]
    · rw [if_neg hn]

/-- Claim C10 (amended): a null constants pointer with positive size is
treated as the no-constants case for the key fields (no fingerprint
closure, has_guaranteed_const false, default session handle), while the
nonzero size is still passed to the native primitive: the property
record differs from the otherwise-identical size-0 call exactly in
guaranteedConstantsSize, so the two prefixes differ whenever the native
primitive's key output separates different constants sizes. -/
theorem claim_C10_amended
    (native : CompilationCacheKeyProperty → CompilationCacheKeyResult)
    (function_name : List Char) (function_library_fingerprint : Nat)
    (mlir_module : List Char) (n : Nat) (dynamic_shapes : List (List Nat))
    (metadata : TPUCompileMetadataProto) (mesh_state : Nat)
    (hn : 0 < n)
    (hsep : ∀ p q, (native p).key = (native q).key →
      p.guaranteedConstantsSize = q.guaranteedConstantsSize) :
    (createCompilationCacheKeyPtr native function_name function_library_fingerprint
      mlir_module none n dynamic_shapes metadata mesh_state).has_guaranteed_const =
      false ∧
    (createCompilationCacheKeyPtr native function_name function_library_fingerprint
      mlir_module none n dynamic_shapes metadata
      mesh_state).guaranteed_const_fingerprint = none ∧
    (createCompilationCacheKeyPtr native function_name function_library_fingerprint
      mlir_module none n dynamic_shapes metadata mesh_state).session_handle = [] ∧
    (mkProperty function_name function_library_fingerprint mlir_module n
      dynamic_shapes metadata mesh_state).guaranteedConstantsSize = n ∧
    mkProperty function_name function_library_fingerprint mlir_module 0
      dynamic_shapes metadata mesh_state =
      { mkProperty function_name function_library_fingerprint mlir_module n
          dynamic_shapes metadata mesh_state with guaranteedConstantsSize := 0 } ∧
    (createCompilationCacheKeyPtr native function_name function_library_fingerprint
      mlir_module none n dynamic_shapes metadata mesh_state).keyPrefix ≠
      (createCompilationCacheKeyPtr native function_name function_library_fingerprint
        mlir_module none 0 dynamic_shapes metadata mesh_state).keyPrefix := by
  refine ⟨rfl, rfl, rfl, rfl, rfl, ?_⟩
  intro he
  rw [createCompilationCacheKeyPtr, createCompilationCacheKeyPtr,
    assembleKey_keyPrefix, assembleKey_keyPrefix] at he
  have hsz : n = 0 := hsep _ _ he
  omega

/-- A native primitive that ignores its input property entirely. -/
def nativeConst : CompilationCacheKeyProperty → CompilationCacheKeyResult :=
  fun _ => { key := chars "K", debug_string := [] }

/-- Claim C10 counterexample: with a deterministic native primitive that
does not separate constants sizes, a null-pointer call with size 3 and
the otherwise-identical size-0 call produce equal prefixes, refuting the
unconditional final clause of the claim. -/
theorem claim_C10_counterexample :
    (createCompilationCacheKeyPtr nativeConst (chars "f") 1 [] none 3 [] mdEmpty
        0).keyPrefix =
      (createCompilationCacheKeyPtr nativeConst (chars "f") 1 [] none 0 [] mdEmpty
        0).keyPrefix := rfl

/-- A native primitive whose key output records the constants size. -/
def nativeSize : CompilationCacheKeyProperty → CompilationCacheKeyResult :=
  fun p => { key := natDec p.guaranteedConstantsSize, debug_string := [] }

/-- Witness for claim C10 at concrete inputs with a size-separating native
primitive. -/
theorem claim_C10_witness :
    (createCompilationCacheKeyPtr nativeSize (chars "f") 1 [] none 3 [] mdEmpty
      0).has_guaranteed_const = false ∧
    (createCompilationCacheKeyPtr nativeSize (chars "f") 1 [] none 3 [] mdEmpty
      0).guaranteed_const_fingerprint = none ∧
    (createCompilationCacheKeyPtr nativeSize (chars "f") 1 [] none 3 [] mdEmpty
      0).session_handle = [] ∧
    (mkProperty (chars "f") 1 [] 3 [] mdEmpty 0).guaranteedConstantsSize = 3 ∧
    mkProperty (chars "f") 1 [] 0 [] mdEmpty 0 =
      { mkProperty (chars "f") 1 [] 3 [] mdEmpty 0 with
          guaranteedConstantsSize := 0 } ∧
    (createCompilationCacheKeyPtr nativeSize (chars "f") 1 [] none 3 [] mdEmpty
      0).keyPrefix ≠
      (createCompilationCacheKeyPtr nativeSize (chars "f") 1 [] none 0 [] mdEmpty
        0).keyPrefix :=
  claim_C10_amended nativeSize (chars "f") 1 [] 3 [] mdEmpty 0 (by decide)
    (fun _ _ h => natDec_inj h)
